import Mathlib

/-!
Shallow embedding of `src/simple_build/write/_git.py` (a simple git
interface) and proofs about it.

Paths are modelled in the POSIX convention used by `pathlib`: an absolute,
resolved path is its list of components below the filesystem root
(`/repo/sub` is `["repo", "sub"]`, the root `/` is `[]`).  The filesystem
is a parameter: a boolean predicate saying which absolute paths are
existing directories.  The process environment is a parameter as well: a
function from a command line and a working directory to the observed
outcome of `subprocess.check_output`.
-/

namespace SimpleBuild

/-- An absolute, resolved filesystem path: its components below the root. -/
abbrev AbsPath := List String

/-- The filesystem as `pathlib` sees it: which absolute paths are directories. -/
abbrev DirPred := AbsPath → Bool

/-- Model of `pathlib`'s `path.parent` on absolute paths: drop the last component;
the root is its own parent. -/
def parentDir (p : AbsPath) : AbsPath := p.dropLast

/-- Embedding of `find_git_root` (`_git.py`, lines 20-33): walk up from `path`
until a candidate directly contains a `.git` directory; stop with `none` when
the candidate equals its own parent. -/
def find_git_root (isDir : DirPred) (path : AbsPath) : Option AbsPath :=
  if isDir (path ++ [".git"]) then some path
  else if h : path = parentDir path then none
  else find_git_root isDir (parentDir path)
termination_by path.length
decreasing_by
  cases path with
  | nil => exact absurd rfl h
  | cons a l => simp [parentDir]

/-- Holds when `a` is an ancestor of `p` or `p` itself (`p` lies at or below `a`). -/
def ancestorOrSelf (a p : AbsPath) : Prop := ∃ t, a ++ t = p

/-- A byte, as a natural number. -/
abbrev Byte := Nat

/-- Byte-to-text decoding: models `os.fsdecode` and `bytes.decode` on the
one-byte-per-character range exercised by git path records. -/
def decodeBytes (bs : List Byte) : String := String.mk (bs.map Char.ofNat)

/-- The bytes of an ASCII string (used to build concrete raw outputs). -/
def strBytes (s : String) : List Byte := s.data.map Char.toNat

/-- Split a list on a separator, Python-style: splitting the empty list
yields one empty chunk, and every separator occurrence starts a new chunk. -/
def splitSep {α : Type} [DecidableEq α] (sep : α) : List α → List (List α)
  | [] => [[]]
  | b :: bs =>
      if b = sep then [] :: splitSep sep bs
      else (b :: (splitSep sep bs).headI) :: (splitSep sep bs).tail

/-- Python `bytes.split(b"\x00")`: split a byte string on NUL. -/
def splitNul : List Byte → List (List Byte) := splitSep 0

/-- Python `bytes.strip(b"\x00")`: remove all leading and trailing NUL bytes. -/
def stripNul (bs : List Byte) : List Byte :=
  (((bs.dropWhile (· == 0)).reverse.dropWhile (· == 0))).reverse

/-- A `pathlib` pure path: whether it is absolute, plus its components.
`PurePosixPath` parsing drops empty and `.` components. -/
structure PurePath where
  absolute : Bool
  components : List String
deriving DecidableEq

/-- Embedding of `PurePosixPath(s)`: absolute iff `s` starts with `/`; the components are
the nonempty, non-`.` slash-separated pieces. -/
def posixParse (s : String) : PurePath :=
  { absolute := match s.data with
      | '/' :: _ => true
      | _ => false
    components :=
      ((splitSep '/' s.data).map String.mk).filter fun c => c != "" && c != "." }

/-- Embedding of the `pathlib` path join (`/` operator): when the right operand is absolute it
replaces the left one; otherwise its components are appended. -/
def joinPath (cwd : PurePath) (q : PurePath) : PurePath :=
  if q.absolute then q else ⟨cwd.absolute, cwd.components ++ q.components⟩

/-- Model of `str()` on an absolute `pathlib` path. -/
def pathStr (p : AbsPath) : String := "/" ++ String.intercalate "/" p

/-- Python `repr` of a string containing no quote or escape characters. -/
def pyReprStr (s : String) : String := "'" ++ s ++ "'"

/-- The module's error taxonomy (`_git.py`, lines 8-17): the subclasses
`NotGitRepositoryError` and `GitNotFoundError`, and the base `GitError`
raised directly by `run_git` when the git command fails, carrying the
message each is constructed with. -/
inductive GitError where
  | notGitRepository (msg : String)
  | gitNotFound
  | commandFailed (msg : String)
deriving DecidableEq

/-- The fields a constructed `GitFolder` stores (`_cwd`, `_root`,
`_git_exec`), exposed by the `cwd` and `root` properties. -/
structure GitFolder where
  cwd : AbsPath
  root : AbsPath
  git_exec : String
deriving DecidableEq

/-- Embedding of `GitFolder.__init__` (`_git.py`, lines 39-52): `cwd` is resolved (the
model takes it already resolved and absolute), the repository root is
located with `find_git_root`, and construction fails with
`NotGitRepositoryError` when there is none. -/
def GitFolder.init (isDir : DirPred) (cwd : AbsPath) (git_exec : String) :
    Except GitError GitFolder :=
  match find_git_root isDir cwd with
  | none => .error (.notGitRepository
      ("Unable to find git repository root from: " ++ pathStr cwd))
  | some root => .ok { cwd := cwd, root := root, git_exec := git_exec }

/-- The observable outcome of `subprocess.check_output` for one spawn:
the executable was not found, or the process exited with a return code,
captured standard output and captured standard error. -/
inductive ExecResult where
  | fileNotFound
  | exited (returncode : Nat) (stdout : List Byte) (stderr : List Byte)

/-- The process environment: what spawning a given command line in a given
working directory does. -/
abbrev ExecEnv := List String → AbsPath → ExecResult

/-- The message of the `GitError` raised by `run_git` on non-zero exit:
`f"git command \x7b' '.join(command)!r\x7d failed in \x7bself.cwd\x7d: \x7berr.stderr.decode()\x7d"`. -/
def cmdFailMsg (command : List String) (cwd : AbsPath) (stderr : List Byte) :
    String :=
  "git command " ++ pyReprStr (String.intercalate " " command) ++
    " failed in " ++ pathStr cwd ++ ": " ++ decodeBytes stderr

/-- Embedding of `GitFolder.run_git` (`_git.py`, lines 67-86): run `[git_exec, *args]` in
the handle's `cwd`; `FileNotFoundError` becomes `GitNotFoundError`, a
non-zero exit becomes a `GitError` carrying `cmdFailMsg`, and a zero exit
returns the captured standard output bytes. -/
def run_git (env : ExecEnv) (g : GitFolder) (args : List String) :
    Except GitError (List Byte) :=
  let command := g.git_exec :: args
  match env command g.cwd with
  | .fileNotFound => .error .gitNotFound
  | .exited 0 out _ => .ok out
  | .exited (_ + 1) _ stderr =>
      .error (.commandFailed (cmdFailMsg command g.cwd stderr))

/-- The record list of a raw git output: Python
`outb.strip(b"\x00").split(b"\x00")` with empty records dropped by the
`if loc` guard of the set comprehension. -/
def recordsOf (outb : List Byte) : List (List Byte) :=
  (splitNul (stripNul outb)).filter fun loc => !loc.isEmpty

/-- The set comprehension shared by the three queries:
`\x7bself.cwd / PurePosixPath(os.fsdecode(loc)) for loc in records if loc\x7d`. -/
def parseFileSet (cwd : AbsPath) (outb : List Byte) : Finset PurePath :=
  ((recordsOf outb).map fun loc =>
    joinPath ⟨true, cwd⟩ (posixParse (decodeBytes loc))).toFinset

/-- Embedding of `GitFolder.tracked_files` (`_git.py`, lines 88-95). -/
def tracked_files (env : ExecEnv) (g : GitFolder) :
    Except GitError (Finset PurePath) :=
  (run_git env g ["ls-files", "--recurse-submodules", "-z"]).map
    (parseFileSet g.cwd)

/-- Embedding of `GitFolder.new_files` (`_git.py`, lines 97-104). -/
def new_files (env : ExecEnv) (g : GitFolder) :
    Except GitError (Finset PurePath) :=
  (run_git env g ["ls-files", "--others", "--exclude-standard", "-z"]).map
    (parseFileSet g.cwd)

/-- Embedding of `GitFolder.removed_files` (`_git.py`, lines 106-113). -/
def removed_files (env : ExecEnv) (g : GitFolder) :
    Except GitError (Finset PurePath) :=
  (run_git env g ["ls-files", "--deleted", "-z"]).map
    (parseFileSet g.cwd)

/-- The record list as the specification words the parsing: strip one
trailing NUL byte (if present), split on NUL, discard empty records.
Stated for comparison with `recordsOf`, which embeds the code. -/
def specRecordsOf (outb : List Byte) : List (List Byte) :=
  (splitNul (if outb.getLast? = some 0 then outb.dropLast else outb)).filter
    fun loc => !loc.isEmpty

/-- One of the three query methods. -/
inductive Query where
  | tracked
  | untracked
  | deleted
deriving DecidableEq

/-- A query method invocation in explicit state-passing style: a Python
method receives `self` and could reassign its fields; none of these
methods assigns any, so each returns `self` unchanged beside its result. -/
def runQuery (env : ExecEnv) (g : GitFolder) (q : Query) :
    Except GitError (Finset PurePath) × GitFolder :=
  match q with
  | .tracked => (tracked_files env g, g)
  | .untracked => (new_files env g, g)
  | .deleted => (removed_files env g, g)

/-- Run a sequence of queries, threading the handle state. -/
def runQueries (env : ExecEnv) (g : GitFolder) : List Query → GitFolder
  | [] => g
  | q :: qs => runQueries env (runQuery env g q).2 qs

/-! Concrete fixtures used by the witnesses: a filesystem whose only `.git`
directory is `/repo/.git`, the handle on `/repo/sub` it produces, and a few
canned process environments. -/

/-- A filesystem containing exactly the marker directory `/repo/.git`. -/
def exDir : DirPred := fun p => p == ["repo", ".git"]

/-- The handle on `/repo/sub` inside that filesystem. -/
def exFolder : GitFolder :=
  { cwd := ["repo", "sub"], root := ["repo"], git_exec := "git" }

/-- The raw output of the tracked-files scenario: `b"a.txt\x00dir/b.txt\x00"`. -/
def rawC2 : List Byte := strBytes "a.txt\x00dir/b.txt\x00"

/-- A process environment that answers every command with exit 0 and the
tracked-files scenario output. -/
def exEnvOk : ExecEnv := fun _ _ => .exited 0 rawC2 []

/-- A process environment whose tool always exits 1 with
`stderr = b"fatal: not a repo"`. -/
def exEnvFail : ExecEnv := fun _ _ => .exited 1 [] (strBytes "fatal: not a repo")

/-- A process environment in which the executable is never found. -/
def exEnvAbsent : ExecEnv := fun _ _ => .fileNotFound

/-- A raw output whose single record is the absolute path `/abs/x`. -/
def rawC10 : List Byte := strBytes "/abs/x\x00"

/-! Theorems about the embedding. -/

theorem parentDir_length_lt {p : AbsPath} (h : ¬ p = parentDir p) :
    (parentDir p).length < p.length := by
  cases p with
  | nil => simp [parentDir] at h
  | cons a l => simp [parentDir]

theorem eq_parentDir_iff {p : AbsPath} : p = parentDir p ↔ p = [] := by
  cases p with
  | nil => simp [parentDir]
  | cons a l =>
      simp only [parentDir]
      constructor
      · intro h
        have := congrArg List.length h
        simp at this
      · intro h
        exact absurd h (by simp)

theorem ancestorOrSelf_refl (p : AbsPath) : ancestorOrSelf p p := ⟨[], by simp⟩

theorem ancestorOrSelf_nil {a : AbsPath} (h : ancestorOrSelf a []) : a = [] := by
  obtain ⟨t, ht⟩ := h
  exact (List.append_eq_nil.mp ht).1

theorem ancestorOrSelf_length_le {a p : AbsPath} (h : ancestorOrSelf a p) :
    a.length ≤ p.length := by
  obtain ⟨t, ht⟩ := h
  have := congrArg List.length ht
  simp at this
  omega

theorem ancestorOrSelf_parentDir {a p : AbsPath}
    (h : ancestorOrSelf a p) (hne : a ≠ p) : ancestorOrSelf a (parentDir p) := by
  obtain ⟨t, ht⟩ := h
  cases t with
  | nil => exact absurd (by simpa using ht) hne
  | cons c t' =>
      refine ⟨(c :: t').dropLast, ?_⟩
      rw [← ht]
      simp [parentDir, List.dropLast_append_cons]

theorem ancestorOrSelf_of_parentDir {a p : AbsPath}
    (h : ancestorOrSelf a (parentDir p)) : ancestorOrSelf a p := by
  obtain ⟨t, ht⟩ := h
  by_cases hp : p = []
  · subst hp
    simp [parentDir] at ht
    exact ⟨t, by simp [ht]⟩
  · refine ⟨t ++ [p.getLast hp], ?_⟩
    rw [← List.append_assoc, ht]
    exact List.dropLast_append_getLast hp

/-- The three-way case split produced by one unfolding of `find_git_root`. -/
theorem find_git_root_cases (isDir : DirPred) (p : AbsPath) :
    (isDir (p ++ [".git"]) = true ∧ find_git_root isDir p = some p) ∨
    (isDir (p ++ [".git"]) = false ∧ p = [] ∧ find_git_root isDir p = none) ∨
    (isDir (p ++ [".git"]) = false ∧ p ≠ [] ∧
      find_git_root isDir p = find_git_root isDir (parentDir p)) := by
  rw [find_git_root]
  by_cases hm : isDir (p ++ [".git"]) = true
  · left
    simp [hm]
  · have hm' : isDir (p ++ [".git"]) = false := by simpa using hm
    by_cases hp : p = []
    · right; left
      subst hp
      simp [hm', parentDir]
      simpa using hm'
    · right; right
      have hpp : ¬ p = parentDir p := fun h => hp (eq_parentDir_iff.mp h)
      refine ⟨hm', hp, ?_⟩
      simp [hm', hpp]

theorem parentDir_length_le_of_ne {p : AbsPath} (hne : p ≠ []) {n : Nat}
    (hlen : p.length ≤ n + 1) : (parentDir p).length ≤ n := by
  have : 0 < p.length := List.length_pos.mpr hne
  simp only [parentDir, List.length_dropLast]
  omega

theorem find_git_root_marker_aux (isDir : DirPred) :
    ∀ n p r, p.length ≤ n → find_git_root isDir p = some r →
      ancestorOrSelf r p ∧ isDir (r ++ [".git"]) = true := by
  intro n
  induction n with
  | zero =>
      intro p r hlen hfind
      have hp : p = [] := List.eq_nil_of_length_eq_zero (Nat.le_zero.mp hlen)
      subst hp
      rcases find_git_root_cases isDir [] with ⟨hm, hsome⟩ | ⟨_, _, hnone⟩ | ⟨_, hne, _⟩
      · have hpr : ([] : AbsPath) = r := by
          rw [hfind] at hsome
          exact (Option.some_inj.mp hsome).symm
        subst hpr
        exact ⟨ancestorOrSelf_refl _, hm⟩
      · rw [hfind] at hnone; exact absurd hnone (by simp)
      · exact absurd rfl hne
  | succ n ih =>
      intro p r hlen hfind
      rcases find_git_root_cases isDir p with ⟨hm, hsome⟩ | ⟨_, _, hnone⟩ | ⟨hm, hne, hstep⟩
      · have hpr : p = r := by
          rw [hfind] at hsome
          exact (Option.some_inj.mp hsome).symm
        subst hpr
        exact ⟨ancestorOrSelf_refl _, hm⟩
      · rw [hfind] at hnone; exact absurd hnone (by simp)
      · rw [hstep] at hfind
        obtain ⟨hanc, hmark⟩ :=
          ih (parentDir p) r (parentDir_length_le_of_ne hne hlen) hfind
        exact ⟨ancestorOrSelf_of_parentDir hanc, hmark⟩

theorem find_git_root_marker (isDir : DirPred) (p r : AbsPath)
    (hfind : find_git_root isDir p = some r) :
    ancestorOrSelf r p ∧ isDir (r ++ [".git"]) = true :=
  find_git_root_marker_aux isDir p.length p r (Nat.le_refl _) hfind

theorem find_git_root_deepest_aux (isDir : DirPred) :
    ∀ n p r, p.length ≤ n → find_git_root isDir p = some r →
      ∀ a, ancestorOrSelf a p → r.length < a.length →
        isDir (a ++ [".git"]) = false := by
  intro n
  induction n with
  | zero =>
      intro p r hlen hfind a hanc hlt
      have hp : p = [] := List.eq_nil_of_length_eq_zero (Nat.le_zero.mp hlen)
      subst hp
      have ha : a = [] := ancestorOrSelf_nil hanc
      subst ha
      simp at hlt
  | succ n ih =>
      intro p r hlen hfind a hanc hlt
      rcases find_git_root_cases isDir p with ⟨hm, hsome⟩ | ⟨_, _, hnone⟩ | ⟨hm, hne, hstep⟩
      · have hpr : p = r := by
          rw [hfind] at hsome
          exact (Option.some_inj.mp hsome).symm
        subst hpr
        have := ancestorOrSelf_length_le hanc
        omega
      · rw [hfind] at hnone; exact absurd hnone (by simp)
      · rw [hstep] at hfind
        by_cases hap : a = p
        · subst hap; exact hm
        · exact ih (parentDir p) r (parentDir_length_le_of_ne hne hlen) hfind a
            (ancestorOrSelf_parentDir hanc hap) hlt

theorem find_git_root_deepest (isDir : DirPred) (p r : AbsPath)
    (hfind : find_git_root isDir p = some r) :
    ∀ a, ancestorOrSelf a p → r.length < a.length →
      isDir (a ++ [".git"]) = false :=
  find_git_root_deepest_aux isDir p.length p r (Nat.le_refl _) hfind

theorem find_git_root_none_aux (isDir : DirPred) :
    ∀ n p, p.length ≤ n →
      (find_git_root isDir p = none ↔
        ∀ a, ancestorOrSelf a p → isDir (a ++ [".git"]) = false) := by
  intro n
  induction n with
  | zero =>
      intro p hlen
      have hp : p = [] := List.eq_nil_of_length_eq_zero (Nat.le_zero.mp hlen)
      subst hp
      rcases find_git_root_cases isDir [] with ⟨hm, hsome⟩ | ⟨hm, _, hnone⟩ | ⟨_, hne, _⟩
      · constructor
        · intro hfind; rw [hfind] at hsome; exact absurd hsome (by simp)
        · intro hall
          have := hall [] (ancestorOrSelf_refl [])
          rw [hm] at this
          exact absurd this (by simp)
      · constructor
        · intro _ a hanc
          have ha : a = [] := ancestorOrSelf_nil hanc
          subst ha; exact hm
        · intro _; exact hnone
      · exact absurd rfl hne
  | succ n ih =>
      intro p hlen
      rcases find_git_root_cases isDir p with ⟨hm, hsome⟩ | ⟨hm, hnil, hnone⟩ | ⟨hm, hne, hstep⟩
      · constructor
        · intro hfind; rw [hfind] at hsome; exact absurd hsome (by simp)
        · intro hall
          have := hall p (ancestorOrSelf_refl p)
          rw [hm] at this
          exact absurd this (by simp)
      · subst hnil
        constructor
        · intro _ a hanc
          have ha : a = [] := ancestorOrSelf_nil hanc
          subst ha; exact hm
        · intro _; exact hnone
      · rw [hstep, ih (parentDir p) (parentDir_length_le_of_ne hne hlen)]
        constructor
        · intro hall a hanc
          by_cases hap : a = p
          · subst hap; exact hm
          · exact hall a (ancestorOrSelf_parentDir hanc hap)
        · intro hall a hanc
          exact hall a (ancestorOrSelf_of_parentDir hanc)

theorem find_git_root_none (isDir : DirPred) (p : AbsPath) :
    find_git_root isDir p = none ↔
      ∀ a, ancestorOrSelf a p → isDir (a ++ [".git"]) = false :=
  find_git_root_none_aux isDir p.length p (Nat.le_refl _)

/-- C1: for every path `p` with an ancestor-or-self directory that directly
contains the `.git` marker, `find_git_root` returns the nearest (deepest)
such ancestor-or-self directory, regardless of the depth of `p` below it;
for every path with no such ancestor it returns `none`. -/
theorem claim_C1 (isDir : DirPred) (p : AbsPath) :
    (∀ r, find_git_root isDir p = some r →
      ancestorOrSelf r p ∧ isDir (r ++ [".git"]) = true ∧
        ∀ a, ancestorOrSelf a p → r.length < a.length →
          isDir (a ++ [".git"]) = false) ∧
    (find_git_root isDir p = none ↔
      ∀ a, ancestorOrSelf a p → isDir (a ++ [".git"]) = false) := by
  constructor
  · intro r hfind
    obtain ⟨hanc, hmark⟩ := find_git_root_marker isDir p r hfind
    exact ⟨hanc, hmark, find_git_root_deepest isDir p r hfind⟩
  · exact find_git_root_none isDir p


theorem splitSep_ne_nil {α : Type} [DecidableEq α] (sep : α) (l : List α) :
    splitSep sep l ≠ [] := by
  cases l with
  | nil => simp [splitSep]
  | cons b bs =>
      simp only [splitSep]
      split <;> simp

theorem splitSep_append_sep {α : Type} [DecidableEq α] (sep : α) :
    ∀ l, splitSep sep (l ++ [sep]) = splitSep sep l ++ [[]] := by
  intro l
  induction l with
  | nil => simp [splitSep]
  | cons b bs ih =>
      show splitSep sep (b :: (bs ++ [sep])) = splitSep sep (b :: bs) ++ [[]]
      by_cases hb : b = sep
      · simp only [splitSep, if_pos hb, ih]
        simp
      · simp only [splitSep, if_neg hb, ih]
        cases h : splitSep sep bs with
        | nil => exact absurd h (splitSep_ne_nil sep bs)
        | cons r rs => simp [h]

theorem filter_splitNul_cons_zero (bs : List Byte) :
    (splitNul (0 :: bs)).filter (fun loc => !loc.isEmpty) =
      (splitNul bs).filter (fun loc => !loc.isEmpty) := by
  simp [splitNul, splitSep]

theorem filter_splitNul_append_zero (bs : List Byte) :
    (splitNul (bs ++ [0])).filter (fun loc => !loc.isEmpty) =
      (splitNul bs).filter (fun loc => !loc.isEmpty) := by
  simp [splitNul, splitSep_append_sep]

theorem filter_splitNul_dropWhile (bs : List Byte) :
    (splitNul (bs.dropWhile (· == 0))).filter (fun loc => !loc.isEmpty) =
      (splitNul bs).filter (fun loc => !loc.isEmpty) := by
  induction bs with
  | nil => rfl
  | cons b bs ih =>
      by_cases hb : b = 0
      · subst hb
        rw [List.dropWhile_cons_of_pos (by simp), ih, filter_splitNul_cons_zero]
      · rw [List.dropWhile_cons_of_neg (by simp [hb])]

theorem filter_splitNul_dropWhile_rev (ys : List Byte) :
    (splitNul ((ys.dropWhile (· == 0)).reverse)).filter (fun loc => !loc.isEmpty) =
      (splitNul ys.reverse).filter (fun loc => !loc.isEmpty) := by
  induction ys with
  | nil => rfl
  | cons b ys ih =>
      by_cases hb : b = 0
      · subst hb
        rw [List.dropWhile_cons_of_pos (by simp), ih, List.reverse_cons,
          filter_splitNul_append_zero]
      · rw [List.dropWhile_cons_of_neg (by simp [hb])]

theorem recordsOf_eq_filter_splitNul (outb : List Byte) :
    recordsOf outb = (splitNul outb).filter (fun loc => !loc.isEmpty) := by
  show (splitNul (stripNul outb)).filter _ = _
  rw [stripNul, filter_splitNul_dropWhile_rev, List.reverse_reverse,
    filter_splitNul_dropWhile]

theorem specRecordsOf_eq_filter_splitNul (outb : List Byte) :
    specRecordsOf outb = (splitNul outb).filter (fun loc => !loc.isEmpty) := by
  rw [specRecordsOf]
  by_cases h : outb.getLast? = some 0
  · rw [if_pos h]
    conv_rhs =>
      rw [← List.dropLast_append_getLast? 0 (Option.mem_def.mpr h)]
    rw [filter_splitNul_append_zero]
  · rw [if_neg h]

/-- C3: the parsing shared by the three queries behaves as: strip a trailing
NUL (if present), split on NUL, discard empty records; a record in the
result is never empty, and a wholly empty raw output yields the empty set. -/
theorem claim_C3 (outb : List Byte) :
    recordsOf outb = specRecordsOf outb ∧
    (∀ loc ∈ recordsOf outb, loc ≠ []) ∧
    ∀ cwd, parseFileSet cwd [] = ∅ := by
  refine ⟨?_, ?_, fun cwd => rfl⟩
  · rw [recordsOf_eq_filter_splitNul, specRecordsOf_eq_filter_splitNul]
  · intro loc hmem
    rw [recordsOf_eq_filter_splitNul] at hmem
    have := List.of_mem_filter hmem
    simpa using this

/-- C2: on a zero exit with raw output `raw`, `tracked_files` returns
exactly the set of paths obtained by decoding each NUL-delimited record,
interpreting it as a slash-separated relative path and joining it with the
working directory (duplicates collapsing in the set). -/
theorem claim_C2 (env : ExecEnv) (g : GitFolder) (raw err : List Byte)
    (h : env (g.git_exec :: ["ls-files", "--recurse-submodules", "-z"]) g.cwd
      = .exited 0 raw err) :
    ∃ s, tracked_files env g = .ok s ∧
      ∀ q : PurePath, q ∈ s ↔ ∃ loc, loc ∈ recordsOf raw ∧
        q = joinPath ⟨true, g.cwd⟩ (posixParse (decodeBytes loc)) := by
  refine ⟨parseFileSet g.cwd raw, ?_, ?_⟩
  · simp [tracked_files, run_git, h, Except.map]
  · intro q
    rw [parseFileSet, List.mem_toFinset, List.mem_map]
    constructor
    · rintro ⟨loc, hloc, rfl⟩
      exact ⟨loc, hloc, rfl⟩
    · rintro ⟨loc, hloc, rfl⟩
      exact ⟨loc, hloc, rfl⟩

/-- Closed instance of `claim_C2`: the spec's scenario with working
directory `/repo/sub` and raw output `b"a.txt\x00dir/b.txt\x00"`. -/
theorem claim_C2_witness :
    (exEnvOk ["git", "ls-files", "--recurse-submodules", "-z"] ["repo", "sub"]
      = .exited 0 rawC2 []) ∧
    (∃ s, tracked_files exEnvOk exFolder = .ok s ∧
      ∀ q : PurePath, q ∈ s ↔ ∃ loc, loc ∈ recordsOf rawC2 ∧
        q = joinPath ⟨true, ["repo", "sub"]⟩ (posixParse (decodeBytes loc))) ∧
    tracked_files exEnvOk exFolder =
      .ok ({⟨true, ["repo", "sub", "a.txt"]⟩,
            ⟨true, ["repo", "sub", "dir", "b.txt"]⟩} : Finset PurePath) :=
  ⟨rfl, claim_C2 exEnvOk exFolder rawC2 [] rfl, by rfl⟩

/-- C4: construction fails exactly when `find_git_root` finds no root, the
failure is always `NotGitRepositoryError`, and on success the handle stores
the located root, the working directory and the executable path. -/
theorem claim_C4 (isDir : DirPred) (cwd : AbsPath) (gx : String) :
    ((∃ e, GitFolder.init isDir cwd gx = .error e) ↔
      find_git_root isDir cwd = none) ∧
    (∀ e, GitFolder.init isDir cwd gx = .error e →
      e = .notGitRepository
        ("Unable to find git repository root from: " ++ pathStr cwd)) ∧
    (∀ r, find_git_root isDir cwd = some r →
      GitFolder.init isDir cwd gx = .ok ⟨cwd, r, gx⟩) := by
  cases hf : find_git_root isDir cwd with
  | none =>
      refine ⟨⟨fun _ => rfl, ?_⟩, ?_, ?_⟩
      · intro _
        exact ⟨.notGitRepository
          ("Unable to find git repository root from: " ++ pathStr cwd),
          by simp [GitFolder.init, hf]⟩
      · intro e he
        simp only [GitFolder.init, hf] at he
        exact (Except.error.inj he).symm
      · intro r hr
        exact absurd hr (by simp)
  | some r0 =>
      refine ⟨⟨?_, ?_⟩, ?_, ?_⟩
      · rintro ⟨e, he⟩
        simp only [GitFolder.init, hf] at he
        exact Except.noConfusion he
      · intro hnone
        exact absurd hnone (by simp)
      · intro e he
        simp only [GitFolder.init, hf] at he
        exact Except.noConfusion he
      · intro r hr
        have hr0 : r0 = r := Option.some_inj.mp hr
        subst hr0
        simp [GitFolder.init, hf]

/-- Closed instance of `claim_C4`, on the fixture filesystem (where
construction succeeds) and on the empty filesystem (where it fails with
`NotGitRepositoryError`). -/
theorem claim_C4_witness :
    (GitFolder.init exDir ["repo", "sub"] "git" = .ok exFolder) ∧
    (∀ e, GitFolder.init (fun _ => false) ["repo", "sub"] "git" = .error e →
      e = .notGitRepository
        ("Unable to find git repository root from: " ++ pathStr ["repo", "sub"])) := by
  have hsome : find_git_root exDir ["repo", "sub"] = some ["repo"] := by
    simp [find_git_root, parentDir, exDir]
  refine ⟨?_, (claim_C4 (fun _ => false) ["repo", "sub"] "git").2.1⟩
  have := (claim_C4 exDir ["repo", "sub"] "git").2.2 ["repo"] hsome
  simpa [exFolder] using this

/-- C5: whenever the spawned tool exits with a non-zero status, `run_git`
fails with the command-failed error kind, and the message carries the full
command line, the working directory and the decoded standard error
verbatim (the decoded standard error is a suffix of the message). -/
theorem claim_C5 (env : ExecEnv) (g : GitFolder) (args : List String)
    (k : Nat) (out err : List Byte)
    (h : env (g.git_exec :: args) g.cwd = .exited (k + 1) out err) :
    run_git env g args =
      .error (.commandFailed (cmdFailMsg (g.git_exec :: args) g.cwd err)) ∧
    ∃ pre, cmdFailMsg (g.git_exec :: args) g.cwd err =
      pre ++ decodeBytes err := by
  constructor
  · simp [run_git, h]
  · exact ⟨_, rfl⟩

/-- Closed instance of `claim_C5`: exit status 1 with standard error
`b"fatal: not a repo"`; the query fails with the command-failed kind and
its message ends with `"fatal: not a repo"`. -/
theorem claim_C5_witness :
    (exEnvFail ["git", "ls-files", "--recurse-submodules", "-z"] ["repo", "sub"]
      = .exited 1 [] (strBytes "fatal: not a repo")) ∧
    (run_git exEnvFail exFolder ["ls-files", "--recurse-submodules", "-z"] =
      .error (.commandFailed
        (cmdFailMsg ["git", "ls-files", "--recurse-submodules", "-z"]
          ["repo", "sub"] (strBytes "fatal: not a repo"))) ∧
      ∃ pre, cmdFailMsg ["git", "ls-files", "--recurse-submodules", "-z"]
          ["repo", "sub"] (strBytes "fatal: not a repo") =
        pre ++ decodeBytes (strBytes "fatal: not a repo")) ∧
    decodeBytes (strBytes "fatal: not a repo") = "fatal: not a repo" ∧
    tracked_files exEnvFail exFolder =
      .error (.commandFailed
        (cmdFailMsg ["git", "ls-files", "--recurse-submodules", "-z"]
          ["repo", "sub"] (strBytes "fatal: not a repo"))) :=
  ⟨rfl,
    claim_C5 exEnvFail exFolder ["ls-files", "--recurse-submodules", "-z"]
      0 [] (strBytes "fatal: not a repo") rfl,
    by decide, by rfl⟩

/-- C6: when the process environment cannot locate the executable, every
query fails with `GitNotFoundError`. -/
theorem claim_C6 (env : ExecEnv) (g : GitFolder)
    (h : ∀ args, env (g.git_exec :: args) g.cwd = .fileNotFound) :
    tracked_files env g = .error .gitNotFound ∧
    new_files env g = .error .gitNotFound ∧
    removed_files env g = .error .gitNotFound := by
  refine ⟨?_, ?_, ?_⟩ <;>
    simp [tracked_files, new_files, removed_files, run_git, h, Except.map]

/-- Closed instance of `claim_C6`: an environment in which the configured
executable is never found. -/
theorem claim_C6_witness :
    (∀ args, exEnvAbsent ("git" :: args) ["repo", "sub"] = .fileNotFound) ∧
    (tracked_files exEnvAbsent exFolder = .error .gitNotFound ∧
     new_files exEnvAbsent exFolder = .error .gitNotFound ∧
     removed_files exEnvAbsent exFolder = .error .gitNotFound) :=
  ⟨fun _ => rfl, claim_C6 exEnvAbsent exFolder (fun _ => rfl)⟩

theorem runQuery_state (env : ExecEnv) (g : GitFolder) (q : Query) :
    (runQuery env g q).2 = g := by
  cases q <;> rfl

theorem runQueries_eq (env : ExecEnv) (g : GitFolder) :
    ∀ qs, runQueries env g qs = g
  | [] => rfl
  | q :: qs => by
      rw [runQueries, runQuery_state]
      exact runQueries_eq env g qs

/-- C7: for every successfully constructed handle, the repository root is an
ancestor of, or equal to, the working directory, and this is preserved by
every subsequent sequence of queries (the fields are never reassigned). -/
theorem claim_C7 (isDir : DirPred) (cwd : AbsPath) (gx : String) (g : GitFolder)
    (h : GitFolder.init isDir cwd gx = .ok g) :
    ancestorOrSelf g.root g.cwd ∧
    ∀ env qs, (runQueries env g qs).root = g.root ∧
      (runQueries env g qs).cwd = g.cwd ∧
      ancestorOrSelf (runQueries env g qs).root (runQueries env g qs).cwd := by
  have hroot : ancestorOrSelf g.root g.cwd := by
    cases hf : find_git_root isDir cwd with
    | none => simp [GitFolder.init, hf] at h
    | some r =>
        have hg : g = ⟨cwd, r, gx⟩ := by
          simp only [GitFolder.init, hf] at h
          exact (Except.ok.inj h).symm
        subst hg
        exact (find_git_root_marker isDir cwd r hf).1
  refine ⟨hroot, fun env qs => ?_⟩
  rw [runQueries_eq]
  exact ⟨rfl, rfl, hroot⟩

/-- Closed instance of `claim_C7` on the fixture handle. -/
theorem claim_C7_witness :
    (GitFolder.init exDir ["repo", "sub"] "git" = .ok exFolder) ∧
    ancestorOrSelf exFolder.root exFolder.cwd := by
  have hinit : GitFolder.init exDir ["repo", "sub"] "git" = .ok exFolder := by
    simp [GitFolder.init, find_git_root, parentDir, exDir, exFolder]
  exact ⟨hinit, (claim_C7 exDir ["repo", "sub"] "git" exFolder hinit).1⟩

/-- C8: the three error kinds are pairwise distinguishable, whatever
messages they carry, so a caller can branch on the kind of any failure. -/
theorem claim_C8 (m1 m2 : String) :
    GitError.notGitRepository m1 ≠ GitError.gitNotFound ∧
    GitError.notGitRepository m1 ≠ GitError.commandFailed m2 ∧
    GitError.gitNotFound ≠ GitError.commandFailed m2 :=
  ⟨fun h => GitError.noConfusion h,
   fun h => GitError.noConfusion h,
   fun h => GitError.noConfusion h⟩

/-- C9: no query mutates handle state: a single query hands back the handle
unchanged, and after any sequence of queries, in any order and with any
repetition, every field equals its value at construction. -/
theorem claim_C9 (env : ExecEnv) (g : GitFolder) :
    (∀ q, (runQuery env g q).2 = g) ∧
    ∀ qs, runQueries env g qs = g ∧
      (runQueries env g qs).root = g.root ∧
      (runQueries env g qs).cwd = g.cwd ∧
      (runQueries env g qs).git_exec = g.git_exec := by
  refine ⟨runQuery_state env g, fun qs => ?_⟩
  rw [runQueries_eq]
  exact ⟨rfl, rfl, rfl, rfl⟩

/-- C10: a record that decodes to an absolute path survives the join with
the working directory unchanged, so the returned set contains it as is and
query results are not guaranteed to lie under the working directory. -/
theorem claim_C10 (cwd : AbsPath) (outb : List Byte) (loc : List Byte)
    (hmem : loc ∈ recordsOf outb)
    (habs : (posixParse (decodeBytes loc)).absolute = true) :
    joinPath ⟨true, cwd⟩ (posixParse (decodeBytes loc)) =
      posixParse (decodeBytes loc) ∧
    posixParse (decodeBytes loc) ∈ parseFileSet cwd outb := by
  have hjoin : joinPath ⟨true, cwd⟩ (posixParse (decodeBytes loc)) =
      posixParse (decodeBytes loc) := by
    rw [joinPath, if_pos habs]
  refine ⟨hjoin, ?_⟩
  rw [parseFileSet, List.mem_toFinset, List.mem_map]
  exact ⟨loc, hmem, hjoin⟩

/-- Closed instance of `claim_C10`: the raw record `b"/abs/x"` yields
`/abs/x` itself, not a path under `/repo/sub`. -/
theorem claim_C10_witness :
    (strBytes "/abs/x" ∈ recordsOf rawC10) ∧
    ((posixParse (decodeBytes (strBytes "/abs/x"))).absolute = true) ∧
    (joinPath ⟨true, ["repo", "sub"]⟩ (posixParse (decodeBytes (strBytes "/abs/x"))) =
        posixParse (decodeBytes (strBytes "/abs/x")) ∧
      posixParse (decodeBytes (strBytes "/abs/x")) ∈
        parseFileSet ["repo", "sub"] rawC10) ∧
    parseFileSet ["repo", "sub"] rawC10 = ({⟨true, ["abs", "x"]⟩} : Finset PurePath) :=
  ⟨by decide, by decide,
    claim_C10 ["repo", "sub"] rawC10 (strBytes "/abs/x") (by decide) (by decide),
    by rfl⟩

end SimpleBuild
